import Mathlib

/-!
# Verification of the Azure storage backend client cache (`src/src/main.rs`)

The program keeps a process-wide cache
`AZ_STORAGE_BACKEND_CACHE : Arc<Mutex<HashMap<String, Arc<RwLock<DataLakeClient>>>>>`
and a single operation `AzureStorageBackend::new(auth_parameter)` that, while
holding the mutex, looks the account url up in the map; on a hit it clones the
cached `Arc`, on a miss it runs the construction sequence (default credential,
auto-refreshing token, storage credentials, `DataLakeClient::new`), inserts the
fresh `Arc` into the map and returns it, always wrapped in `Ok`.

## Embedding

`Arc<RwLock<DataLakeClient>>` identity (pointer identity of the allocation) is
modelled by a natural-number allocation id, handed out by a counter `nextId`
threaded through the state.  The cache is an association list from account-url
strings to allocation ids (lookup and insert-when-absent observably agree with
`HashMap`), and a `store` association list from allocation ids to the
constructed `DataLakeClient` values models the heap of allocations.  The whole
body of `AzureStorageBackend::new` runs inside `cache.lock().await`, so a single
call is one atomic state transformation `CacheState → CacheState`; the function
additionally reports whether the construction sequence ran (the third
component), which is the observable "factory invocation".

Concurrency (claim about N simultaneous callers) is treated separately with a
small-step scheduler model in which the mutex acquisition, the lookup and the
construction/insertion are distinct steps, see `SysState` and `stepTask` below.
-/

/-- The error type of the Rust signature `Result<Self, miette::Error>`.
`miette::Error` is an inhabited dynamic error type; a message string models it.
No value of this type is ever produced by the code under verification. -/
structure MietteError where
  message : String
  deriving Repr, DecidableEq

/-- Models the external collaborator `azure_identity::DefaultAzureCredential`
at the boundary of §6 of the spec: an opaque credential value. -/
structure DefaultAzureCredential where
  deriving Repr, DecidableEq

/-- `DefaultAzureCredentialBuilder::default().build()`: produces the default
credential.  In the source this call is infallible (no `Result`, no `?`). -/
def DefaultAzureCredentialBuilder.build : DefaultAzureCredential := {}

/-- `azure_identity::AutoRefreshingTokenCredential::new(inner)`: wraps a
credential with automatic refresh. -/
structure AutoRefreshingTokenCredential where
  inner : DefaultAzureCredential
  deriving Repr, DecidableEq

/-- `azure_storage::StorageCredentials::token_credential(token)`. -/
structure StorageCredentials where
  token : AutoRefreshingTokenCredential
  deriving Repr, DecidableEq

/-- Models `azure_storage_datalake::DataLakeClient` at the §6 boundary: a
client bound to the account url and the credentials it was built from. -/
structure DataLakeClient where
  accountUrl : String
  credentials : StorageCredentials
  deriving Repr, DecidableEq

/-- `DataLakeClient::new(account, credentials)`. -/
def DataLakeClient.new (account : String) (credentials : StorageCredentials) :
    DataLakeClient :=
  { accountUrl := account, credentials := credentials }

/-- The mutable state reachable from `AZ_STORAGE_BACKEND_CACHE`:
`cache` is the `HashMap<String, Arc<RwLock<DataLakeClient>>>` with `Arc`s
represented by allocation ids, `store` maps each allocation id to the
`DataLakeClient` stored in it, and `nextId` is the allocator counter (every id
in use is `< nextId`). -/
structure CacheState where
  cache : List (String × Nat)
  store : List (Nat × DataLakeClient)
  nextId : Nat
  deriving Repr, DecidableEq

/-- The process starts with `HashMap::new()` inside the lazy static: an empty
cache and no allocations. -/
def CacheState.initial : CacheState :=
  { cache := [], store := [], nextId := 0 }

/-- `pub struct AzureStorageBackend { client: Arc<RwLock<DataLakeClient>> }`:
the handle holds (the identity of) one shared client allocation. -/
structure AzureStorageBackend where
  client : Nat
  deriving Repr, DecidableEq

/-- `AzureStorageBackend::new` (src/src/main.rs:26-63).  The whole async body
executes under `cache_clone.lock().await`, so it is one atomic transformation
of `CacheState`.  Returns the `Result`, the post state, and whether the
construction sequence (credential acquisition + `DataLakeClient::new` +
insertion) was executed. -/
def AzureStorageBackend.new (authParameter : String) (st : CacheState) :
    Except MietteError AzureStorageBackend × CacheState × Bool :=
  let storageAccountUrl := authParameter
  match st.cache.lookup storageAccountUrl with
  | some existingClient =>
      (Except.ok { client := existingClient }, st, false)
  | none =>
      let tokenCredential := DefaultAzureCredentialBuilder.build
      let refreshToken : AutoRefreshingTokenCredential := { inner := tokenCredential }
      let storageCredentials : StorageCredentials := { token := refreshToken }
      let dataLakeClient := DataLakeClient.new storageAccountUrl storageCredentials
      let dataLakeClientArc := st.nextId
      (Except.ok { client := dataLakeClientArc },
       { cache := (storageAccountUrl, dataLakeClientArc) :: st.cache,
         store := (dataLakeClientArc, dataLakeClient) :: st.store,
         nextId := st.nextId + 1 },
       true)

/-- `#[derive(Clone)]` on `AzureStorageBackend`: field-wise clone, i.e.
`Arc::clone` of `client` — a new handle to the same allocation.  It reads no
global state; it is given the state-passing shape of the other operation to
state frame conditions, and reports `false` for "construction executed". -/
def AzureStorageBackend.clone (b : AzureStorageBackend) (st : CacheState) :
    AzureStorageBackend × CacheState × Bool :=
  ({ client := b.client }, st, false)

/-- Run a sequence of `AzureStorageBackend::new` calls (discarding the returned
handles) from a given state: the state evolution of a whole program run. -/
def runNewFrom (ops : List String) (st : CacheState) : CacheState :=
  match ops with
  | [] => st
  | op :: rest => runNewFrom rest (AzureStorageBackend.new op st).2.1

/-! ## Basic lemmas about the sequential semantics -/

theorem lookup_mem_of_eq_some {l : List (String × Nat)} {k : String} {v : Nat}
    (h : List.lookup k l = some v) : (k, v) ∈ l := by
  induction l with
  | nil => simp [List.lookup] at h
  | cons p rest ih =>
    obtain ⟨a, b⟩ := p
    rw [List.lookup_cons] at h
    by_cases hk : k = a
    · subst hk; simp at h; simp [h]
    · simp [beq_eq_false_iff_ne.mpr hk] at h
      exact List.mem_cons_of_mem _ (ih h)

/-- On a cache hit, `new` leaves the state untouched, constructs nothing, and
returns the cached allocation. -/
theorem new_hit {x : String} {st : CacheState} {v : Nat}
    (h : st.cache.lookup x = some v) :
    AzureStorageBackend.new x st = (Except.ok { client := v }, st, false) := by
  simp [AzureStorageBackend.new, h]

/-- On a cache miss, `new` allocates `st.nextId`, inserts it under `x`, records
the constructed client in the store, and reports that construction ran. -/
theorem new_miss {x : String} {st : CacheState}
    (h : st.cache.lookup x = none) :
    AzureStorageBackend.new x st =
      (Except.ok { client := st.nextId },
       { cache := (x, st.nextId) :: st.cache,
         store := (st.nextId,
           DataLakeClient.new x { token := { inner := {} } }) :: st.store,
         nextId := st.nextId + 1 },
       true) := by
  simp [AzureStorageBackend.new, h, DefaultAzureCredentialBuilder.build]

/-- After any single call with key `x`, the post state binds `x` to the client
of the returned handle. -/
theorem new_lookup_self (x : String) (st : CacheState) :
    ∃ b : AzureStorageBackend,
      (AzureStorageBackend.new x st).1 = Except.ok b ∧
      ((AzureStorageBackend.new x st).2.1).cache.lookup x = some b.client := by
  cases h : st.cache.lookup x with
  | some v =>
    refine ⟨{ client := v }, ?_, ?_⟩ <;> rw [new_hit h]
    exact h
  | none =>
    refine ⟨{ client := st.nextId }, ?_, ?_⟩ <;> rw [new_miss h]
    simp [List.lookup_cons]

/-- A single call never removes or replaces an existing binding. -/
theorem new_preserves_binding (y : String) {x : String} {st : CacheState} {v : Nat}
    (h : st.cache.lookup x = some v) :
    ((AzureStorageBackend.new y st).2.1).cache.lookup x = some v := by
  cases hy : st.cache.lookup y with
  | some w => rw [new_hit hy]; exact h
  | none =>
    rw [new_miss hy]
    have hxy : x ≠ y := by
      rintro rfl; rw [h] at hy; exact Option.noConfusion hy
    simpa [List.lookup_cons, beq_eq_false_iff_ne.mpr hxy] using h

/-- A whole run of further calls never removes or replaces an existing
binding. -/
theorem runNewFrom_preserves_binding (ops : List String) {x : String}
    {st : CacheState} {v : Nat} (h : st.cache.lookup x = some v) :
    ((runNewFrom ops st)).cache.lookup x = some v := by
  induction ops generalizing st with
  | nil => exact h
  | cons op rest ih => exact ih (new_preserves_binding op h)

/-! ## Reachable-state invariant: allocation ids are bounded and injective -/

/-- Invariant of every reachable `CacheState`: every cached allocation id is
below the allocator counter, and distinct keys are bound to distinct ids. -/
structure CacheInv (st : CacheState) : Prop where
  bound : ∀ p ∈ st.cache, p.2 < st.nextId
  inj : ∀ p ∈ st.cache, ∀ q ∈ st.cache, p.2 = q.2 → p.1 = q.1

theorem cacheInv_initial : CacheInv CacheState.initial := by
  constructor <;> intro p hp <;> simp [CacheState.initial] at hp

theorem cacheInv_new (x : String) {st : CacheState} (h : CacheInv st) :
    CacheInv ((AzureStorageBackend.new x st).2.1) := by
  cases hx : st.cache.lookup x with
  | some v => rw [new_hit hx]; exact h
  | none =>
    rw [new_miss hx]
    constructor
    · intro p hp
      rcases List.mem_cons.mp hp with rfl | hp
      · exact Nat.lt_succ_self _
      · exact Nat.lt_succ_of_lt (h.bound p hp)
    · intro p hp q hq hpq
      rcases List.mem_cons.mp hp with rfl | hp <;>
        rcases List.mem_cons.mp hq with rfl | hq
      · rfl
      · exact absurd (hpq ▸ h.bound q hq) (Nat.lt_irrefl _)
      · exact absurd (hpq ▸ h.bound p hp) (Nat.lt_irrefl _)
      · exact h.inj p hp q hq hpq

theorem cacheInv_runNewFrom (ops : List String) {st : CacheState}
    (h : CacheInv st) : CacheInv (runNewFrom ops st) := by
  induction ops generalizing st with
  | nil => exact h
  | cons op rest ih => exact ih (cacheInv_new op h)

/-! ## Claim theorems (sequential semantics) -/

/-- Claim C2: after one successful call `new x`, a subsequent call with `x`
performs no construction work (flag `false`), leaves the cache state unchanged,
and returns the very same handle as the first call. -/
theorem C2_idempotent_retrieval (x : String) (st0 : CacheState)
    (b1 : AzureStorageBackend)
    (h : (AzureStorageBackend.new x st0).1 = Except.ok b1) :
    AzureStorageBackend.new x (AzureStorageBackend.new x st0).2.1 =
      (Except.ok b1, (AzureStorageBackend.new x st0).2.1, false) := by
  obtain ⟨b, hb, hl⟩ := new_lookup_self x st0
  rw [hb] at h
  cases h
  exact new_hit hl

/-- Witness for C2 at `x = "acct1"` from the initial state. -/
theorem C2_idempotent_retrieval_witness :
    (AzureStorageBackend.new "acct1" CacheState.initial).1 =
      Except.ok { client := 0 } ∧
    AzureStorageBackend.new "acct1"
        (AzureStorageBackend.new "acct1" CacheState.initial).2.1 =
      (Except.ok { client := 0 },
       (AzureStorageBackend.new "acct1" CacheState.initial).2.1, false) :=
  ⟨rfl, C2_idempotent_retrieval "acct1" CacheState.initial { client := 0 } rfl⟩

/-- Claim C3: on a key absent from the cache, `new x` runs the full
construction sequence (flag `true`, the built `DataLakeClient` for `x` is
stored under the fresh allocation id), inserts the new entry at key `x`, and
the returned handle is exactly that newly inserted allocation. -/
theorem C3_construct_and_insert_on_miss (x : String) (st : CacheState)
    (h : st.cache.lookup x = none) :
    (AzureStorageBackend.new x st).2.2 = true ∧
    (AzureStorageBackend.new x st).1 = Except.ok { client := st.nextId } ∧
    ((AzureStorageBackend.new x st).2.1).cache = (x, st.nextId) :: st.cache ∧
    ((AzureStorageBackend.new x st).2.1).store.lookup st.nextId =
      some (DataLakeClient.new x { token := { inner := {} } }) := by
  rw [new_miss h]
  refine ⟨rfl, rfl, rfl, ?_⟩
  simp [List.lookup_cons]

/-- Witness for C3 at `x = "acct1"` on the empty initial cache. -/
theorem C3_construct_and_insert_on_miss_witness :
    CacheState.initial.cache.lookup "acct1" = none ∧
    ((AzureStorageBackend.new "acct1" CacheState.initial).2.2 = true ∧
     (AzureStorageBackend.new "acct1" CacheState.initial).1 =
       Except.ok { client := CacheState.initial.nextId } ∧
     ((AzureStorageBackend.new "acct1" CacheState.initial).2.1).cache =
       ("acct1", CacheState.initial.nextId) :: CacheState.initial.cache ∧
     ((AzureStorageBackend.new "acct1" CacheState.initial).2.1).store.lookup
         CacheState.initial.nextId =
       some (DataLakeClient.new "acct1" { token := { inner := {} } })) :=
  ⟨rfl, C3_construct_and_insert_on_miss "acct1" CacheState.initial rfl⟩

/-- Claim C6: keys are compared by exact string equality, without any
normalization: for any two distinct strings (in particular strings differing
only in letter case) the second call constructs a fresh client and the cache
maintains two separate entries bound to distinct instances. -/
theorem C6_exact_match_keys (s t : String) (h : s ≠ t) :
    (AzureStorageBackend.new s CacheState.initial).1 =
      Except.ok { client := 0 } ∧
    (AzureStorageBackend.new t
        (AzureStorageBackend.new s CacheState.initial).2.1).2.2 = true ∧
    (AzureStorageBackend.new t
        (AzureStorageBackend.new s CacheState.initial).2.1).1 =
      Except.ok { client := 1 } ∧
    ((AzureStorageBackend.new t
        (AzureStorageBackend.new s CacheState.initial).2.1).2.1).cache.lookup s
      = some 0 ∧
    ((AzureStorageBackend.new t
        (AzureStorageBackend.new s CacheState.initial).2.1).2.1).cache.lookup t
      = some 1 := by
  have hts : (t == s) = false := beq_eq_false_iff_ne.mpr (Ne.symm h)
  have hst : (s == t) = false := beq_eq_false_iff_ne.mpr h
  simp [AzureStorageBackend.new, CacheState.initial, List.lookup_cons, hts,
    hst, DefaultAzureCredentialBuilder.build]

/-- Witness for C6 at two keys differing only in letter case. -/
theorem C6_exact_match_keys_witness :
    ("Acct" ≠ "acct") ∧
    ((AzureStorageBackend.new "Acct" CacheState.initial).1 =
       Except.ok { client := 0 } ∧
     (AzureStorageBackend.new "acct"
         (AzureStorageBackend.new "Acct" CacheState.initial).2.1).2.2 = true ∧
     (AzureStorageBackend.new "acct"
         (AzureStorageBackend.new "Acct" CacheState.initial).2.1).1 =
       Except.ok { client := 1 } ∧
     ((AzureStorageBackend.new "acct"
         (AzureStorageBackend.new "Acct" CacheState.initial).2.1).2.1).cache.lookup "Acct"
       = some 0 ∧
     ((AzureStorageBackend.new "acct"
         (AzureStorageBackend.new "Acct" CacheState.initial).2.1).2.1).cache.lookup "acct"
       = some 1) :=
  ⟨by decide, C6_exact_match_keys "Acct" "acct" (by decide)⟩

/-- Claim C7: the cache only grows and never rebinds: once `x` is bound to
allocation `v`, any sequence of further calls leaves that binding in place, and
every later call with `x` returns a handle to that same allocation `v` without
constructing. -/
theorem C7_no_eviction_no_replacement (ops : List String) (x : String)
    (v : Nat) (st : CacheState) (h : st.cache.lookup x = some v) :
    (runNewFrom ops st).cache.lookup x = some v ∧
    AzureStorageBackend.new x (runNewFrom ops st) =
      (Except.ok { client := v }, runNewFrom ops st, false) := by
  have hm := runNewFrom_preserves_binding ops h
  exact ⟨hm, new_hit hm⟩

/-- Witness for C7: bind "acct1", run two other keys and a repeat, binding
survives and the next call returns the original allocation. -/
theorem C7_no_eviction_no_replacement_witness :
    (runNewFrom ["acct1"] CacheState.initial).cache.lookup "acct1" = some 0 ∧
    ((runNewFrom ["b", "acct1", "c"]
        (runNewFrom ["acct1"] CacheState.initial)).cache.lookup "acct1" = some 0 ∧
     AzureStorageBackend.new "acct1"
         (runNewFrom ["b", "acct1", "c"] (runNewFrom ["acct1"] CacheState.initial)) =
       (Except.ok { client := 0 },
        runNewFrom ["b", "acct1", "c"] (runNewFrom ["acct1"] CacheState.initial),
        false)) :=
  ⟨by decide,
   C7_no_eviction_no_replacement ["b", "acct1", "c"] "acct1" 0
     (runNewFrom ["acct1"] CacheState.initial) (by decide)⟩

/-- Claim C8: `#[derive(Clone)]` on the handle clones the `Arc`: the clone
references the same client allocation, the cache state is untouched, and the
factory (construction sequence) is not re-invoked. -/
theorem C8_clone_is_cheap_and_pure (b : AzureStorageBackend) (st : CacheState) :
    (AzureStorageBackend.clone b st).1.client = b.client ∧
    (AzureStorageBackend.clone b st).2.1 = st ∧
    (AzureStorageBackend.clone b st).2.2 = false :=
  ⟨rfl, rfl, rfl⟩

/-- Claim C9: `AzureStorageBackend::new` never returns the `Err` variant: both
branches of the body produce `Ok`. -/
theorem C9_never_err (x : String) (st : CacheState) :
    ∃ b : AzureStorageBackend,
      (AzureStorageBackend.new x st).1 = Except.ok b := by
  obtain ⟨b, hb, -⟩ := new_lookup_self x st
  exact ⟨b, hb⟩

/-- Claim C10: no validation of the account identifier: called with the empty
string, `new` succeeds, runs the construction sequence, and caches an entry
under the empty string itself. -/
theorem C10_no_input_validation :
    (AzureStorageBackend.new "" CacheState.initial).1 =
      Except.ok { client := 0 } ∧
    (AzureStorageBackend.new "" CacheState.initial).2.2 = true ∧
    ((AzureStorageBackend.new "" CacheState.initial).2.1).cache.lookup "" =
      some 0 :=
  ⟨rfl, rfl, rfl⟩

/-- Claim C5: key isolation.  In any program run (any calls before and between
them), a handle obtained for key `a` and a handle obtained for key `b` with
`a ≠ b` never reference the same client allocation. -/
theorem C5_key_isolation (ops1 ops2 : List String) (a b : String)
    (hab : a ≠ b) (ha hb : AzureStorageBackend)
    (h1 : (AzureStorageBackend.new a
            (runNewFrom ops1 CacheState.initial)).1 = Except.ok ha)
    (h2 : (AzureStorageBackend.new b
            (runNewFrom ops2
              (AzureStorageBackend.new a
                (runNewFrom ops1 CacheState.initial)).2.1)).1 = Except.ok hb) :
    ha.client ≠ hb.client := by
  obtain ⟨ba, hba, hla⟩ := new_lookup_self a (runNewFrom ops1 CacheState.initial)
  rw [hba] at h1
  cases h1
  obtain ⟨bb, hbb, hlb⟩ := new_lookup_self b
    (runNewFrom ops2
      (AzureStorageBackend.new a (runNewFrom ops1 CacheState.initial)).2.1)
  rw [hbb] at h2
  cases h2
  have hla2 : ((AzureStorageBackend.new b
      (runNewFrom ops2
        (AzureStorageBackend.new a
          (runNewFrom ops1 CacheState.initial)).2.1)).2.1).cache.lookup a =
      some ha.client :=
    new_preserves_binding b (runNewFrom_preserves_binding ops2 hla)
  have hinv : CacheInv ((AzureStorageBackend.new b
      (runNewFrom ops2
        (AzureStorageBackend.new a
          (runNewFrom ops1 CacheState.initial)).2.1)).2.1) :=
    cacheInv_new b (cacheInv_runNewFrom ops2
      (cacheInv_new a (cacheInv_runNewFrom ops1 cacheInv_initial)))
  intro hcl
  exact hab (hinv.inj _ (lookup_mem_of_eq_some hla2) _
    (lookup_mem_of_eq_some hlb) hcl)

/-- Witness for C5: a fresh run, `"acct1"` then `"acct3"`, allocations 0 and
1 are distinct. -/
theorem C5_key_isolation_witness :
    ("acct1" ≠ "acct3") ∧
    (AzureStorageBackend.new "acct1"
        (runNewFrom [] CacheState.initial)).1 =
      Except.ok ({ client := 0 } : AzureStorageBackend) ∧
    (AzureStorageBackend.new "acct3"
        (runNewFrom []
          (AzureStorageBackend.new "acct1"
            (runNewFrom [] CacheState.initial)).2.1)).1 =
      Except.ok ({ client := 1 } : AzureStorageBackend) ∧
    ({ client := 0 } : AzureStorageBackend).client ≠
      ({ client := 1 } : AzureStorageBackend).client :=
  ⟨by decide, rfl, rfl,
   C5_key_isolation [] [] "acct1" "acct3" (by decide)
     { client := 0 } { client := 1 } rfl rfl⟩

/-! ## Concurrency model: N tasks racing through `AzureStorageBackend::new`

Each concurrent caller of `new` is a task with a program counter through the
body of the async block: `ready` (before `cache_clone.lock().await`),
`inLookup` (lock acquired, about to run the `match` on `get_mut`),
`inConstruct` (lock held, observed absence, running the suspending
construction sequence), and `finished result constructed` (lock released,
`Ok` returned).  The mutex is an `Option Nat` naming the task holding it; a
`ready` task can only advance when the mutex is free.  The lookup and the
construction/insertion are separate steps, so the suspension point inside the
critical section (credential acquisition awaits while the lock is held) is
visible to the scheduler; an arbitrary schedule (list of task indices, a
disabled or out-of-range index leaving the state unchanged) drives the
system. -/

inductive TaskPhase where
  | ready
  | inLookup
  | inConstruct
  | finished (result : Nat) (constructed : Bool)
  deriving Repr, DecidableEq

/-- One concurrent caller: the key it passes to `new` and its progress. -/
structure ConcTask where
  key : String
  phase : TaskPhase
  deriving Repr, DecidableEq

/-- The shared system state: the cache map and allocator (as in `CacheState`,
the store of client values is elided here), the mutex owner, and the tasks. -/
structure SysState where
  cache : List (String × Nat)
  nextId : Nat
  lock : Option Nat
  tasks : List ConcTask
  deriving Repr, DecidableEq

/-- `true` while the task is inside the mutex-guarded block. -/
def TaskPhase.holdsLock : TaskPhase → Bool
  | .inLookup => true
  | .inConstruct => true
  | _ => false

def TaskPhase.isFinished : TaskPhase → Bool
  | .finished _ _ => true
  | _ => false

/-- `true` for a task that completed its call having run the construction
sequence (the factory invocation). -/
def TaskPhase.isConstructedFinish : TaskPhase → Bool
  | .finished _ true => true
  | _ => false

/-- Advance task `i` by one step of the body of `AzureStorageBackend::new`.
A task whose index does not exist, that is already finished, or that is
`ready` while another task holds the mutex, leaves the state unchanged. -/
def stepTask (s : SysState) (i : Nat) : SysState :=
  match s.tasks[i]? with
  | none => s
  | some t =>
    match t.phase with
    | .ready =>
      match s.lock with
      | some _ => s
      | none =>
        { s with lock := some i,
                 tasks := s.tasks.set i { t with phase := .inLookup } }
    | .inLookup =>
      match s.cache.lookup t.key with
      | some v =>
        { s with lock := none,
                 tasks := s.tasks.set i { t with phase := .finished v false } }
      | none =>
        { s with tasks := s.tasks.set i { t with phase := .inConstruct } }
    | .inConstruct =>
      { s with cache := (t.key, s.nextId) :: s.cache,
               nextId := s.nextId + 1,
               lock := none,
               tasks := s.tasks.set i { t with phase := .finished s.nextId true } }
    | .finished _ _ => s

/-- Run a schedule: the scheduler picks task indices in this order. -/
def runSched (sched : List Nat) (s : SysState) : SysState :=
  match sched with
  | [] => s
  | i :: rest => runSched rest (stepTask s i)

/-- `n` concurrent callers of `new x` against the fresh (empty) cache. -/
def initConc (n : Nat) (x : String) : SysState :=
  { cache := [], nextId := 0, lock := none,
    tasks := List.replicate n { key := x, phase := .ready } }

/-- All callers have returned. -/
def allFinished (s : SysState) : Bool :=
  s.tasks.all (fun t => t.phase.isFinished)

/-- How many callers ran the construction sequence. -/
def constructions (s : SysState) : Nat :=
  s.tasks.countP (fun t => t.phase.isConstructedFinish)

/-! ### Step-equation lemmas for `stepTask` -/

theorem stepTask_noTask {s : SysState} {i : Nat} (h : s.tasks[i]? = none) :
    stepTask s i = s := by
  simp [stepTask, h]

theorem stepTask_blocked {s : SysState} {i j : Nat} {t : ConcTask}
    (hti : s.tasks[i]? = some t) (hph : t.phase = .ready)
    (hl : s.lock = some j) : stepTask s i = s := by
  simp [stepTask, hti, hph, hl]

theorem stepTask_acquire {s : SysState} {i : Nat} {t : ConcTask}
    (hti : s.tasks[i]? = some t) (hph : t.phase = .ready)
    (hl : s.lock = none) :
    stepTask s i =
      { s with lock := some i,
               tasks := s.tasks.set i { t with phase := .inLookup } } := by
  simp [stepTask, hti, hph, hl]

theorem stepTask_hit {s : SysState} {i : Nat} {t : ConcTask} {v : Nat}
    (hti : s.tasks[i]? = some t) (hph : t.phase = .inLookup)
    (hlk : s.cache.lookup t.key = some v) :
    stepTask s i =
      { s with lock := none,
               tasks := s.tasks.set i { t with phase := .finished v false } } := by
  simp [stepTask, hti, hph, hlk]

theorem stepTask_missed {s : SysState} {i : Nat} {t : ConcTask}
    (hti : s.tasks[i]? = some t) (hph : t.phase = .inLookup)
    (hlk : s.cache.lookup t.key = none) :
    stepTask s i =
      { s with tasks := s.tasks.set i { t with phase := .inConstruct } } := by
  simp [stepTask, hti, hph, hlk]

theorem stepTask_insert {s : SysState} {i : Nat} {t : ConcTask}
    (hti : s.tasks[i]? = some t) (hph : t.phase = .inConstruct) :
    stepTask s i =
      { s with cache := (t.key, s.nextId) :: s.cache,
               nextId := s.nextId + 1,
               lock := none,
               tasks := s.tasks.set i
                 { t with phase := .finished s.nextId true } } := by
  simp [stepTask, hti, hph]

theorem stepTask_already {s : SysState} {i : Nat} {t : ConcTask} {v : Nat}
    {c : Bool} (hti : s.tasks[i]? = some t)
    (hph : t.phase = .finished v c) : stepTask s i = s := by
  simp [stepTask, hti, hph]

/-! ### Helper lemmas on lists -/

theorem lookup_cons_self {k : String} {v : Nat} {l : List (String × Nat)} :
    List.lookup k ((k, v) :: l) = some v := by
  simp [List.lookup_cons]

theorem lookup_cons_ne {k a : String} {v : Nat} {l : List (String × Nat)}
    (h : k ≠ a) : List.lookup k ((a, v) :: l) = List.lookup k l := by
  simp [List.lookup_cons, beq_eq_false_iff_ne.mpr h]

theorem getElem?_set_cases {l : List ConcTask} {i j : Nat} {t a u : ConcTask}
    (hti : l[i]? = some t) (hju : (l.set i a)[j]? = some u) :
    (j = i ∧ u = a) ∨ (j ≠ i ∧ l[j]? = some u) := by
  obtain ⟨hi, -⟩ := List.getElem?_eq_some.mp hti
  by_cases hij : i = j
  · subst hij
    rw [List.getElem?_set_self hi] at hju
    exact Or.inl ⟨rfl, (Option.some_inj.mp hju).symm⟩
  · rw [List.getElem?_set_ne hij] at hju
    exact Or.inr ⟨fun hj => hij hj.symm, hju⟩

theorem countP_set_add (p : ConcTask → Bool) :
    ∀ (l : List ConcTask) (i : Nat) (t a : ConcTask), l[i]? = some t →
      (l.set i a).countP p + (if p t then 1 else 0) =
        l.countP p + (if p a then 1 else 0) := by
  intro l
  induction l with
  | nil => intro i t a h; simp at h
  | cons x xs ih =>
    intro i t a h
    cases i with
    | zero =>
      simp at h
      subst h
      simp only [List.set_cons_zero, List.countP_cons]
      omega
    | succ j =>
      simp at h
      simp only [List.set_cons_succ, List.countP_cons]
      have := ih j t a h
      omega

theorem countP_set_same {l : List ConcTask} {i : Nat} {t a : ConcTask}
    (p : ConcTask → Bool) (h : l[i]? = some t) (hpt : p t = p a) :
    (l.set i a).countP p = l.countP p := by
  have := countP_set_add p l i t a h
  rw [hpt] at this
  omega

theorem countP_set_incr {l : List ConcTask} {i : Nat} {t a : ConcTask}
    (p : ConcTask → Bool) (h : l[i]? = some t) (hpt : p t = false)
    (hpa : p a = true) :
    (l.set i a).countP p = l.countP p + 1 := by
  have := countP_set_add p l i t a h
  rw [hpt, hpa] at this
  simp at this
  omega

/-! ### The mutual-exclusion invariant -/

/-- Invariant of every reachable system state (from a fresh cache).
`lockCrit`: only the mutex owner is inside the guarded block (mutual
exclusion).  `constructFresh`: a task constructing observed its key absent,
and absence persists while it holds the lock.  `finishedBound`: a returned
handle is the cache binding of its key.  `countEq`: for each key, the number
of callers that ran the construction sequence is 1 once the key is bound and
0 before. -/
structure ConcInv (s : SysState) : Prop where
  lockCrit : ∀ (i : Nat) (t : ConcTask), s.tasks[i]? = some t →
    t.phase.holdsLock = true → s.lock = some i
  constructFresh : ∀ (i : Nat) (t : ConcTask), s.tasks[i]? = some t →
    t.phase = .inConstruct → s.cache.lookup t.key = none
  finishedBound : ∀ (i : Nat) (t : ConcTask) (v : Nat) (c : Bool),
    s.tasks[i]? = some t → t.phase = .finished v c →
    s.cache.lookup t.key = some v
  countEq : ∀ k : String,
    s.tasks.countP (fun u => u.key == k && u.phase.isConstructedFinish) =
      if (s.cache.lookup k).isSome then 1 else 0

theorem concInv_init (n : Nat) (x : String) : ConcInv (initConc n x) := by
  have hrep : ∀ (i : Nat) (t : ConcTask), (initConc n x).tasks[i]? = some t →
      t = { key := x, phase := .ready } := by
    intro i t h
    simp only [initConc] at h
    rw [List.getElem?_replicate] at h
    split at h
    · exact (Option.some_inj.mp h).symm
    · exact Option.noConfusion h
  constructor
  · intro i t h hcrit
    rw [hrep i t h] at hcrit
    simp [TaskPhase.holdsLock] at hcrit
  · intro i t h hph
    rw [hrep i t h] at hph
    simp at hph
  · intro i t v c h hph
    rw [hrep i t h] at hph
    simp at hph
  · intro k
    have h0 : List.countP
        (fun u : ConcTask => u.key == k && u.phase.isConstructedFinish)
        (initConc n x).tasks = 0 := by
      rw [List.countP_eq_zero]
      intro u hu
      rw [List.eq_of_mem_replicate hu]
      simp [TaskPhase.isConstructedFinish]
    rw [h0]
    simp [initConc, List.lookup]

theorem concInv_stepTask (s : SysState) (i : Nat) (h : ConcInv s) :
    ConcInv (stepTask s i) := by
  cases hti : s.tasks[i]? with
  | none => rw [stepTask_noTask hti]; exact h
  | some t =>
  cases hph : t.phase with
  | ready =>
    cases hl : s.lock with
    | some j => rw [stepTask_blocked hti hph hl]; exact h
    | none =>
      rw [stepTask_acquire hti hph hl]
      refine ⟨?_, ?_, ?_, ?_⟩
      · intro j u hju hu
        rcases getElem?_set_cases hti hju with ⟨rfl, rfl⟩ | ⟨hij, hj⟩
        · rfl
        · have hlj := h.lockCrit j u hj hu
          rw [hl] at hlj
          exact Option.noConfusion hlj
      · intro j u hju hu
        rcases getElem?_set_cases hti hju with ⟨rfl, rfl⟩ | ⟨hij, hj⟩
        · simp at hu
        · exact h.constructFresh j u hj hu
      · intro j u v c hju hu
        rcases getElem?_set_cases hti hju with ⟨rfl, rfl⟩ | ⟨hij, hj⟩
        · simp at hu
        · exact h.finishedBound j u v c hj hu
      · intro k
        rw [countP_set_same _ hti
          (by simp [hph, TaskPhase.isConstructedFinish])]
        exact h.countEq k
  | inLookup =>
    have hlock : s.lock = some i :=
      h.lockCrit i t hti (by rw [hph]; rfl)
    cases hlk : s.cache.lookup t.key with
    | some v =>
      rw [stepTask_hit hti hph hlk]
      refine ⟨?_, ?_, ?_, ?_⟩
      · intro j u hju hu
        rcases getElem?_set_cases hti hju with ⟨rfl, rfl⟩ | ⟨hij, hj⟩
        · simp [TaskPhase.holdsLock] at hu
        · have hlj := h.lockCrit j u hj hu
          rw [hlock] at hlj
          exact absurd (Option.some_inj.mp hlj).symm hij
      · intro j u hju hu
        rcases getElem?_set_cases hti hju with ⟨rfl, rfl⟩ | ⟨hij, hj⟩
        · simp at hu
        · exact h.constructFresh j u hj hu
      · intro j u vv cc hju hu
        rcases getElem?_set_cases hti hju with ⟨rfl, rfl⟩ | ⟨hij, hj⟩
        · have hk : ({ t with phase := TaskPhase.finished v false } :
              ConcTask).phase = TaskPhase.finished v false := rfl
          rw [hk] at hu
          injection hu with h1 h2
          subst h1
          exact hlk
        · exact h.finishedBound j u vv cc hj hu
      · intro k
        rw [countP_set_same _ hti
          (by simp [hph, TaskPhase.isConstructedFinish])]
        exact h.countEq k
    | none =>
      rw [stepTask_missed hti hph hlk]
      refine ⟨?_, ?_, ?_, ?_⟩
      · intro j u hju hu
        rcases getElem?_set_cases hti hju with ⟨rfl, rfl⟩ | ⟨hij, hj⟩
        · exact hlock
        · exact h.lockCrit j u hj hu
      · intro j u hju hu
        rcases getElem?_set_cases hti hju with ⟨rfl, rfl⟩ | ⟨hij, hj⟩
        · exact hlk
        · exact h.constructFresh j u hj hu
      · intro j u vv cc hju hu
        rcases getElem?_set_cases hti hju with ⟨rfl, rfl⟩ | ⟨hij, hj⟩
        · simp at hu
        · exact h.finishedBound j u vv cc hj hu
      · intro k
        rw [countP_set_same _ hti
          (by simp [hph, TaskPhase.isConstructedFinish])]
        exact h.countEq k
  | inConstruct =>
    have hlock : s.lock = some i :=
      h.lockCrit i t hti (by rw [hph]; rfl)
    have hfresh : s.cache.lookup t.key = none :=
      h.constructFresh i t hti hph
    rw [stepTask_insert hti hph]
    refine ⟨?_, ?_, ?_, ?_⟩
    · intro j u hju hu
      rcases getElem?_set_cases hti hju with ⟨rfl, rfl⟩ | ⟨hij, hj⟩
      · simp [TaskPhase.holdsLock] at hu
      · have hlj := h.lockCrit j u hj hu
        rw [hlock] at hlj
        exact absurd (Option.some_inj.mp hlj).symm hij
    · intro j u hju hu
      rcases getElem?_set_cases hti hju with ⟨rfl, rfl⟩ | ⟨hij, hj⟩
      · simp at hu
      · have hlj := h.lockCrit j u hj (by rw [hu]; rfl)
        rw [hlock] at hlj
        exact absurd (Option.some_inj.mp hlj).symm hij
    · intro j u vv cc hju hu
      rcases getElem?_set_cases hti hju with ⟨rfl, rfl⟩ | ⟨hij, hj⟩
      · have hk : ({ t with phase := TaskPhase.finished s.nextId true } :
            ConcTask).phase = TaskPhase.finished s.nextId true := rfl
        rw [hk] at hu
        injection hu with h1 h2
        subst h1
        exact lookup_cons_self
      · have hold := h.finishedBound j u vv cc hj hu
        have hne : u.key ≠ t.key := by
          intro he
          rw [he, hfresh] at hold
          exact Option.noConfusion hold
        rw [lookup_cons_ne hne]
        exact hold
    · intro k
      by_cases hk : t.key = k
      · subst hk
        rw [countP_set_incr _ hti
            (by simp [hph, TaskPhase.isConstructedFinish])
            (by simp [TaskPhase.isConstructedFinish])]
        have h0 := h.countEq t.key
        rw [hfresh] at h0
        rw [h0, lookup_cons_self]
        simp
      · rw [countP_set_same _ hti
          (by simp [hph, TaskPhase.isConstructedFinish,
            beq_eq_false_iff_ne.mpr hk])]
        rw [lookup_cons_ne (fun he => hk he.symm)]
        exact h.countEq k
  | finished v c =>
    rw [stepTask_already hti hph]
    exact h

theorem concInv_runSched (sched : List Nat) (s : SysState) (h : ConcInv s) :
    ConcInv (runSched sched s) := by
  induction sched generalizing s with
  | nil => exact h
  | cons i rest ih => exact ih _ (concInv_stepTask s i h)

/-! ### Shape of task updates, key and length preservation -/

theorem stepTask_tasks_shape (s : SysState) (i : Nat) :
    (stepTask s i).tasks = s.tasks ∨
    ∃ (t : ConcTask) (ph : TaskPhase), s.tasks[i]? = some t ∧
      (stepTask s i).tasks = s.tasks.set i { t with phase := ph } := by
  cases hti : s.tasks[i]? with
  | none => exact Or.inl (by rw [stepTask_noTask hti])
  | some t =>
    cases hph : t.phase with
    | ready =>
      cases hl : s.lock with
      | some j => exact Or.inl (by rw [stepTask_blocked hti hph hl])
      | none =>
        exact Or.inr ⟨t, .inLookup, rfl, by rw [stepTask_acquire hti hph hl]⟩
    | inLookup =>
      cases hlk : s.cache.lookup t.key with
      | some v =>
        exact Or.inr ⟨t, .finished v false, rfl,
          by rw [stepTask_hit hti hph hlk]⟩
      | none =>
        exact Or.inr ⟨t, .inConstruct, rfl,
          by rw [stepTask_missed hti hph hlk]⟩
    | inConstruct =>
      exact Or.inr ⟨t, .finished s.nextId true, rfl,
        by rw [stepTask_insert hti hph]⟩
    | finished v c => exact Or.inl (by rw [stepTask_already hti hph])

/-- Each task keeps its key across the whole run: only phases evolve. -/
theorem allKeys_stepTask (x : String) (s : SysState) (i : Nat)
    (h : ∀ t ∈ s.tasks, t.key = x) :
    ∀ t ∈ (stepTask s i).tasks, t.key = x := by
  rcases stepTask_tasks_shape s i with hs | ⟨t, ph, hti, hs⟩
  · rw [hs]; exact h
  · rw [hs]
    intro u hu
    rcases List.mem_or_eq_of_mem_set hu with hu | rfl
    · exact h u hu
    · exact h t (List.getElem?_mem hti)

theorem allKeys_runSched (x : String) (sched : List Nat) (s : SysState)
    (h : ∀ t ∈ s.tasks, t.key = x) :
    ∀ t ∈ (runSched sched s).tasks, t.key = x := by
  induction sched generalizing s with
  | nil => exact h
  | cons i rest ih => exact ih _ (allKeys_stepTask x s i h)

theorem length_tasks_stepTask (s : SysState) (i : Nat) :
    (stepTask s i).tasks.length = s.tasks.length := by
  rcases stepTask_tasks_shape s i with hs | ⟨t, ph, -, hs⟩ <;> rw [hs]
  rw [List.length_set]

theorem length_tasks_runSched (sched : List Nat) (s : SysState) :
    (runSched sched s).tasks.length = s.tasks.length := by
  induction sched generalizing s with
  | nil => rfl
  | cons i rest ih => rw [runSched, ih, length_tasks_stepTask]

/-- In any state satisfying the invariant in which every task has key `x` and
every task has returned, exactly one construction sequence ran and all
returned handles carry the same allocation. -/
theorem finalState_agreement (x : String) (s : SysState) (hinv : ConcInv s)
    (hkeys : ∀ t ∈ s.tasks, t.key = x) (hne : 0 < s.tasks.length)
    (hdone : allFinished s = true) :
    constructions s = 1 ∧
    ∀ t1 ∈ s.tasks, ∀ t2 ∈ s.tasks,
      ∀ (v1 : Nat) (c1 : Bool) (v2 : Nat) (c2 : Bool),
        t1.phase = .finished v1 c1 → t2.phase = .finished v2 c2 →
        v1 = v2 := by
  have hbound : ∀ t ∈ s.tasks, ∀ (v : Nat) (c : Bool),
      t.phase = .finished v c → s.cache.lookup x = some v := by
    intro t ht v c hph
    obtain ⟨j, hj⟩ := List.getElem?_of_mem ht
    have := hinv.finishedBound j t v c hj hph
    rw [hkeys t ht] at this
    exact this
  constructor
  · obtain ⟨t0, ht0⟩ : ∃ t0 : ConcTask, s.tasks[0]? = some t0 := by
      cases h0 : s.tasks[0]? with
      | none => rw [List.getElem?_eq_none_iff] at h0; omega
      | some t0 => exact ⟨t0, rfl⟩
    have ht0m : t0 ∈ s.tasks := List.getElem?_mem ht0
    have hfin : t0.phase.isFinished = true :=
      List.all_eq_true.mp hdone t0 ht0m
    obtain ⟨v0, c0, hph0⟩ : ∃ v0 c0, t0.phase = .finished v0 c0 := by
      cases hp : t0.phase <;> rw [hp] at hfin <;>
        simp [TaskPhase.isFinished] at hfin
      exact ⟨_, _, rfl⟩
    have hsome := hbound t0 ht0m v0 c0 hph0
    have hcount := hinv.countEq x
    rw [hsome] at hcount
    simp at hcount
    rw [constructions, ← hcount]
    apply List.countP_congr
    intro u hu
    rw [hkeys u hu]
    simp
  · intro t1 h1 t2 h2 v1 c1 v2 c2 hp1 hp2
    have hs1 := hbound t1 h1 v1 c1 hp1
    have hs2 := hbound t2 h2 v2 c2 hp2
    rw [hs1] at hs2
    exact Option.some_inj.mp hs2

/-- Claim C1: single construction under concurrency.  For `n > 0` concurrent
callers of `new x` on the fresh cache and any schedule after which every
caller has returned, the construction sequence executed exactly once across
all callers, and all returned handles carry the identical client
allocation. -/
theorem C1_single_construction (n : Nat) (x : String) (sched : List Nat)
    (hn : 0 < n)
    (hdone : allFinished (runSched sched (initConc n x)) = true) :
    constructions (runSched sched (initConc n x)) = 1 ∧
    ∀ t1 ∈ (runSched sched (initConc n x)).tasks,
      ∀ t2 ∈ (runSched sched (initConc n x)).tasks,
      ∀ (v1 : Nat) (c1 : Bool) (v2 : Nat) (c2 : Bool),
        t1.phase = .finished v1 c1 → t2.phase = .finished v2 c2 →
        v1 = v2 := by
  apply finalState_agreement x
  · exact concInv_runSched sched _ (concInv_init n x)
  · apply allKeys_runSched
    intro t ht
    rw [List.eq_of_mem_replicate ht]
  · rw [length_tasks_runSched]
    simp [initConc]
    exact hn
  · exact hdone

/-- Witness for C1: three callers of `new "acct2"`; the schedule interleaves
task 1's attempts to acquire the mutex while task 0 holds it through its
suspension point; one construction, and every caller gets allocation 0. -/
theorem C1_single_construction_witness :
    (0 < 3 ∧
     allFinished (runSched [0, 1, 0, 1, 0, 1, 1, 2, 2]
       (initConc 3 "acct2")) = true) ∧
    (constructions (runSched [0, 1, 0, 1, 0, 1, 1, 2, 2]
       (initConc 3 "acct2")) = 1 ∧
     ∀ t1 ∈ (runSched [0, 1, 0, 1, 0, 1, 1, 2, 2] (initConc 3 "acct2")).tasks,
       ∀ t2 ∈ (runSched [0, 1, 0, 1, 0, 1, 1, 2, 2] (initConc 3 "acct2")).tasks,
       ∀ (v1 : Nat) (c1 : Bool) (v2 : Nat) (c2 : Bool),
         t1.phase = .finished v1 c1 → t2.phase = .finished v2 c2 →
         v1 = v2) :=
  ⟨⟨by decide, by decide⟩,
   C1_single_construction 3 "acct2" [0, 1, 0, 1, 0, 1, 1, 2, 2]
     (by decide) (by decide)⟩
